import Mathlib

/-
Verification of the jetIDE file-tree core: a shallow embedding of the
tree store (src/renderer/stores/fileTreeStore.ts), the tree service
cache and batch delete (src/renderer/services/fileTreeService.ts) and
the watch-event reducer, together with proofs of the testable
properties stated for them.
-/

/-- Kind of a filesystem entry: the TypeScript union 'file' | 'directory'. -/
inductive NodeType : Type where
  | file
  | directory
deriving DecidableEq, Repr

/-- Runtime shape of a FileTreeNode object (interface FileTreeNode in
src/shared/types).  Every field is wrapped in Option to model presence or
absence of the property on the underlying JavaScript object: TypeScript marks
size, lastModified, children, isExpanded, isLoading and parent as optional,
and the node table can additionally hold objects missing the remaining fields,
because updateNode merges updates into a spread of undefined when the id is
absent from the table.  A well-formed node carries some for id, name, path,
type and depth. -/
inductive FileTreeNode : Type where
  | mk
      (id : Option String)
      (name : Option String)
      (path : Option String)
      (type : Option NodeType)
      (size : Option Int)
      (lastModified : Option Int)
      (children : Option (List FileTreeNode))
      (isExpanded : Option Bool)
      (isLoading : Option Bool)
      (parent : Option String)
      (depth : Option Int)

def FileTreeNode.id : FileTreeNode → Option String
  | .mk v _ _ _ _ _ _ _ _ _ _ => v

def FileTreeNode.name : FileTreeNode → Option String
  | .mk _ v _ _ _ _ _ _ _ _ _ => v

def FileTreeNode.path : FileTreeNode → Option String
  | .mk _ _ v _ _ _ _ _ _ _ _ => v

def FileTreeNode.type : FileTreeNode → Option NodeType
  | .mk _ _ _ v _ _ _ _ _ _ _ => v

def FileTreeNode.size : FileTreeNode → Option Int
  | .mk _ _ _ _ v _ _ _ _ _ _ => v

def FileTreeNode.lastModified : FileTreeNode → Option Int
  | .mk _ _ _ _ _ v _ _ _ _ _ => v

def FileTreeNode.children : FileTreeNode → Option (List FileTreeNode)
  | .mk _ _ _ _ _ _ v _ _ _ _ => v

def FileTreeNode.isExpanded : FileTreeNode → Option Bool
  | .mk _ _ _ _ _ _ _ v _ _ _ => v

def FileTreeNode.isLoading : FileTreeNode → Option Bool
  | .mk _ _ _ _ _ _ _ _ v _ _ => v

def FileTreeNode.parent : FileTreeNode → Option String
  | .mk _ _ _ _ _ _ _ _ _ v _ => v

def FileTreeNode.depth : FileTreeNode → Option Int
  | .mk _ _ _ _ _ _ _ _ _ _ v => v

/-- JavaScript coerces a property key to a string; indexing an object with an
undefined key reads or writes the property named "undefined". -/
def jsKey (s : Option String) : String := s.getD "undefined"

/-- First-match lookup in an association list, the embedding of reading a
property of a JavaScript object used as a string-keyed map. -/
def lookupTbl {α : Type} : List (String × α) → String → Option α
  | [], _ => none
  | (k, v) :: rest, key => if k = key then some v else lookupTbl rest key

/-- The embedding of the JavaScript delete operator on a string-keyed object. -/
def eraseTbl {α : Type} (t : List (String × α)) (k : String) : List (String × α) :=
  t.filter (fun kv => kv.1 != k)

/-- The embedding of writing one property of a string-keyed object, as in the
spread expression \x7b ...nodes, [id]: node \x7d.  The representation keeps the
updated key in front; none of the modelled operations observe the iteration
order of the table, so this is extensionally the JavaScript map update. -/
def insertTbl {α : Type} (t : List (String × α)) (k : String) (v : α) : List (String × α) :=
  (k, v) :: eraseTbl t k

/-- interface FileTreeState (src/shared/types).  rootPaths stores the values
node.path pushed by addNode and setNodes, which on a malformed node can be the
JavaScript value undefined, hence Option String elements. -/
structure FileTreeState where
  nodes : List (String × FileTreeNode)
  rootPaths : List (Option String)
  selectedNodes : List String
  expandedNodes : List String
  loadingNodes : List String
  searchQuery : String
  filteredNodes : List String

/-- const initialState in fileTreeStore.ts. -/
def initialState : FileTreeState :=
  { nodes := []
    rootPaths := []
    selectedNodes := []
    expandedNodes := []
    loadingNodes := []
    searchQuery := ""
    filteredNodes := [] }

/-- Upper-case hexadecimal digit, as produced by encodeURIComponent escapes. -/
def hexUpper (n : Nat) : Char :=
  if n < 10 then Char.ofNat (48 + n) else Char.ofNat (55 + n)

/-- UTF-8 byte sequence of a Unicode code point (code points of Char are below
0x110000, so at most four bytes). -/
def utf8Bytes (n : Nat) : List Nat :=
  if n < 128 then [n]
  else if n < 2048 then [192 + n / 64, 128 + n % 64]
  else if n < 65536 then [224 + n / 4096, 128 + n / 64 % 64, 128 + n % 64]
  else [240 + n / 262144, 128 + n / 4096 % 64, 128 + n / 64 % 64, 128 + n % 64]

/-- Characters encodeURIComponent leaves unescaped. -/
def isUnreservedURIChar (c : Char) : Bool :=
  c.isAlpha || c.isDigit ||
    (c == '-' || c == '_' || c == '.' || c == '!' || c == '~' || c == '*' ||
      c == '\'' || c == '(' || c == ')')

/-- encodeURIComponent as a byte string: unreserved characters pass through,
every other character is UTF-8 encoded and percent-escaped with upper-case
hexadecimal digits. -/
def encodeURIComponent (s : String) : List Nat :=
  (s.data.map (fun c =>
    if isUnreservedURIChar c then [c.toNat]
    else ((utf8Bytes c.toNat).map
      (fun b => [37, (hexUpper (b / 16)).toNat, (hexUpper (b % 16)).toNat])).flatten)).flatten

/-- Character of the standard base64 alphabet at an index below 64. -/
def b64Char (n : Nat) : Char :=
  if n < 26 then Char.ofNat (65 + n)
  else if n < 52 then Char.ofNat (97 + (n - 26))
  else if n < 62 then Char.ofNat (48 + (n - 52))
  else if n = 62 then '+'
  else '/'

/-- btoa: base64 encoding of a byte string with canonical = padding. -/
def btoa : List Nat → List Char
  | [] => []
  | [b1] => [b64Char (b1 / 4), b64Char (b1 % 4 * 16), '=', '=']
  | [b1, b2] => [b64Char (b1 / 4), b64Char (b1 % 4 * 16 + b2 / 16), b64Char (b2 % 16 * 4), '=']
  | b1 :: b2 :: b3 :: rest =>
      b64Char (b1 / 4) :: b64Char (b1 % 4 * 16 + b2 / 16) ::
        b64Char (b2 % 16 * 4 + b3 / 64) :: b64Char (b3 % 64) :: btoa rest

/-- generateNodeId (fileTreeStore.ts): btoa(encodeURIComponent(path)) with the
characters +, / and = removed by the global regex replace. -/
def generateNodeId (path : String) : String :=
  String.mk ((btoa (encodeURIComponent path)).filter
    (fun c => !(c == '+' || c == '/' || c == '=')))

/-- Sort key of FileTreeConfig.sortBy. -/
inductive SortBy : Type where
  | name
  | type
  | size
  | modified
deriving DecidableEq

/-- Sort direction of FileTreeConfig.sortOrder. -/
inductive SortOrder : Type where
  | asc
  | desc
deriving DecidableEq

/-- name.split('.').pop(): the substring after the last dot (the whole name
when there is no dot).  split always returns a non-empty array, so pop never
yields undefined, and the JavaScript fallback || '' on the right argument is
the identity here. -/
def extOf (name : String) : String := (name.splitOn ".").getLastD ""

/-- A missing name read as a string.  The comparator below dereferences
a.name; the modelled states always carry names, and the embedding totalises
the access with the empty string. -/
def jsStr (s : Option String) : String := s.getD ""

/-- The comparator closure inside sortNodesByConfig.  lcZh stands for the
host collation a.name.localeCompare(b.name, 'zh-CN', numeric), lcDef for the
plain localeCompare used on file extensions; both are environment functions
and enter as parameters.  The JavaScript || 0 after the extension comparison
maps 0 to 0 and is the identity on the integer result.  Note that the final
line negates the whole comparison in descending order, including the value
produced by the directory-versus-file branch. -/
def compareNodes (lcZh lcDef : String → String → Int) (sortBy : SortBy)
    (sortOrder : SortOrder) (a b : FileTreeNode) : Int :=
  let comparison : Int :=
    if a.type ≠ b.type then
      if a.type = some NodeType.directory then -1 else 1
    else
      match sortBy with
      | SortBy.name => lcZh (jsStr a.name) (jsStr b.name)
      | SortBy.type => lcDef (extOf (jsStr a.name)) (extOf (jsStr b.name))
      | SortBy.size => a.size.getD 0 - b.size.getD 0
      | SortBy.modified => a.lastModified.getD 0 - b.lastModified.getD 0
  if sortOrder = SortOrder.desc then -comparison else comparison

/-- sortNodesByConfig (fileTreeStore.ts): a copy of the list sorted with the
comparator; Array.prototype.sort is modelled as a stable sort placing a before
b whenever the comparator result is non-positive. -/
def sortNodesByConfig (lcZh lcDef : String → String → Int)
    (nodes : List FileTreeNode) (sortBy : SortBy) (sortOrder : SortOrder) :
    List FileTreeNode :=
  List.insertionSort (fun a b => compareNodes lcZh lcDef sortBy sortOrder a b ≤ 0) nodes

/-- The node object with no fields, i.e. the JavaScript spread of undefined. -/
def emptyNode : FileTreeNode := .mk none none none none none none none none none none none

/-- Object spread \x7b ...old, ...u \x7d: a field present on u overrides the
field of old. -/
def mergeNode (old u : FileTreeNode) : FileTreeNode :=
  .mk (u.id <|> old.id) (u.name <|> old.name) (u.path <|> old.path)
    (u.type <|> old.type) (u.size <|> old.size) (u.lastModified <|> old.lastModified)
    (u.children <|> old.children) (u.isExpanded <|> old.isExpanded)
    (u.isLoading <|> old.isLoading) (u.parent <|> old.parent) (u.depth <|> old.depth)

/-- addNode (fileTreeStore.ts): insert or overwrite by id; when depth is 0 the
path is appended to rootPaths unconditionally. -/
def addNode (s : FileTreeState) (node : FileTreeNode) : FileTreeState :=
  { s with
    nodes := insertTbl s.nodes (jsKey node.id) node
    rootPaths :=
      if node.depth = some 0 then s.rootPaths ++ [node.path] else s.rootPaths }

/-- updateNode (fileTreeStore.ts): writes under id the spread
\x7b ...state.nodes[id], ...updates \x7d; when id is absent the spread of
undefined contributes nothing and the entry becomes the bare updates object. -/
def updateNode (s : FileTreeState) (id : String) (updates : FileTreeNode) : FileTreeState :=
  { s with
    nodes := insertTbl s.nodes id (mergeNode ((lookupTbl s.nodes id).getD emptyNode) updates) }

/-- The ids recursed on by deleteChildren: child.id for each element of the
children array when present (an empty array is truthy in JavaScript, so only
presence is tested). -/
def childKeys (n : FileTreeNode) : List String :=
  (n.children.getD []).map (fun c => jsKey c.id)

/-- The recursive helper deleteChildren inside removeNode: look the id up in
the current table, recurse on each child id of the found node, then delete the
id.  The JavaScript recursion carries no fuel and terminates exactly when the
children graph reached from the start id is acyclic; the fuel argument makes
the embedding total, and the theorems assume acyclicity through a rank
function that also bounds the recursion depth by the fuel supplied by
removeNode. -/
def deleteChildren (fuel : Nat) (nodes : List (String × FileTreeNode)) (nodeId : String) :
    List (String × FileTreeNode) :=
  match fuel with
  | 0 => nodes
  | fuel + 1 =>
    let nodes1 :=
      match lookupTbl nodes nodeId with
      | some nodeToDelete =>
          (childKeys nodeToDelete).foldl (fun acc childId => deleteChildren fuel acc childId) nodes
      | none => nodes
    eraseTbl nodes1 nodeId

/-- removeNode (fileTreeStore.ts): cascading delete through the children
arrays when the id is present, filtering of the id out of the selection,
expansion and loading lists, and removal of the node's path from rootPaths
when its depth is 0. -/
def removeNode (s : FileTreeState) (id : String) : FileTreeState :=
  let node := lookupTbl s.nodes id
  let newNodes :=
    match node with
    | some _ => deleteChildren (s.nodes.length + 1) s.nodes id
    | none => s.nodes
  { s with
    nodes := newNodes
    selectedNodes := s.selectedNodes.filter (fun nodeId => nodeId != id)
    expandedNodes := s.expandedNodes.filter (fun nodeId => nodeId != id)
    loadingNodes := s.loadingNodes.filter (fun nodeId => nodeId != id)
    rootPaths :=
      match node with
      | some n =>
          if n.depth = some 0 then s.rootPaths.filter (fun path => path != n.path)
          else s.rootPaths
      | none => s.rootPaths }

/-- expandNode (fileTreeStore.ts): append the id to expandedNodes unless it is
already included; the node table is not consulted. -/
def expandNode (s : FileTreeState) (nodeId : String) : FileTreeState :=
  { s with
    expandedNodes :=
      if s.expandedNodes.contains nodeId then s.expandedNodes
      else s.expandedNodes ++ [nodeId] }

/-- getSelectedNodes (fileTreeStore.ts): map the selected ids through the node
table and keep the defined results. -/
def getSelectedNodes (s : FileTreeState) : List FileTreeNode :=
  (s.selectedNodes.map (fun id => lookupTbl s.nodes id)).filterMap (fun x => x)

/-- The stats payload of a watch event (src/shared/types: FileWatchEvent.stats). -/
structure FileStats where
  size : Int
  lastModified : Int
  isDirectory : Bool

/-- The four kinds of filesystem watch events. -/
inductive WatchEventType : Type where
  | created
  | modified
  | deleted
  | renamed
deriving DecidableEq

/-- interface FileWatchEvent (src/shared/types): oldPath and stats are
optional fields. -/
structure FileWatchEvent where
  type : WatchEventType
  path : String
  oldPath : Option String
  stats : Option FileStats

/-- The partial update \x7b size, lastModified \x7d passed to updateNode by the
modified branch of the reducer. -/
def sizeTimeUpdate (size lastModified : Int) : FileTreeNode :=
  .mk none none none none (some size) (some lastModified) none none none none none

/-- The override \x7b id, name, path \x7d spread over the old node by the
renamed branch of the reducer. -/
def renameUpdate (id name path : String) : FileTreeNode :=
  .mk (some id) (some name) (some path) none none none none none none none none

/-- handleFileWatchEvent (fileTreeStore.ts).  The renamed branch of the source
tests nodes[generateNodeId(event.oldPath)] twice (once in the guard, once as
oldNode); both reads are the same lookup and are modelled by one match.  The
JavaScript guard event.oldPath also rejects the empty string, which is falsy. -/
def handleFileWatchEvent (s : FileTreeState) (event : FileWatchEvent) : FileTreeState :=
  let nodes := s.nodes
  let nodeId := generateNodeId event.path
  match event.type with
  | WatchEventType.created =>
    match event.stats with
    | some stats =>
        let pathParts := event.path.splitOn "/"
        let name := pathParts.getLastD ""
        let parentPath := String.intercalate "/" pathParts.dropLast
        let parentId := generateNodeId parentPath
        let newNode : FileTreeNode :=
          .mk (some nodeId) (some name) (some event.path)
            (some (if stats.isDirectory then NodeType.directory else NodeType.file))
            (some stats.size) (some stats.lastModified)
            (if stats.isDirectory then some [] else none)
            none none (some parentId) (some ((pathParts.length : Int) - 1))
        addNode s newNode
    | none => s
  | WatchEventType.modified =>
    match event.stats, lookupTbl nodes nodeId with
    | some stats, some _ => updateNode s nodeId (sizeTimeUpdate stats.size stats.lastModified)
    | _, _ => s
  | WatchEventType.deleted =>
    match lookupTbl nodes nodeId with
    | some _ => removeNode s nodeId
    | none => s
  | WatchEventType.renamed =>
    match event.oldPath with
    | some oldPath =>
        if oldPath = "" then s
        else
          let oldNodeId := generateNodeId oldPath
          match lookupTbl nodes oldNodeId with
          | some oldNode =>
              let s1 := removeNode s oldNodeId
              let pathParts := event.path.splitOn "/"
              let name := pathParts.getLastD ""
              let newNode := mergeNode oldNode (renameUpdate nodeId name event.path)
              addNode s1 newNode
          | none => s
    | none => s

/-- CACHE_DURATION in FileTreeService: five minutes in milliseconds. -/
def CACHE_DURATION : Int := 5 * 60 * 1000

/-- The two private maps of FileTreeService: cache (path to child-node list)
and cacheExpiry (path to expiry timestamp).  Date.now() enters the modelled
operations as an explicit now argument. -/
structure CacheState where
  cache : List (String × List FileTreeNode)
  cacheExpiry : List (String × Int)

/-- cleanExpiredCache: walk the expiry entries and delete every path whose
expiry lies strictly in the past from both maps.  The source iterates the live
map while deleting only the entry at hand, which visits exactly the entries of
the snapshot. -/
def cleanExpiredCache (now : Int) (st : CacheState) : CacheState :=
  st.cacheExpiry.foldl
    (fun acc kv =>
      if now > kv.2 then
        { cache := eraseTbl acc.cache kv.1, cacheExpiry := eraseTbl acc.cacheExpiry kv.1 }
      else acc)
    st

/-- getCachedNodes: sweep expired entries, then look the path up; the
JavaScript || null only converts undefined to null and node lists are always
truthy, so the result is the plain lookup.  Returns the updated service state
together with the result. -/
def getCachedNodes (now : Int) (st : CacheState) (path : String) :
    CacheState × Option (List FileTreeNode) :=
  let st1 := cleanExpiredCache now st
  (st1, lookupTbl st1.cache path)

/-- setCachedNodes: store the nodes and a fresh expiry now + CACHE_DURATION. -/
def setCachedNodes (now : Int) (st : CacheState) (path : String)
    (nodes : List FileTreeNode) : CacheState :=
  { cache := insertTbl st.cache path nodes
    cacheExpiry := insertTbl st.cacheExpiry path (now + CACHE_DURATION) }

/-- The result record of the gateway call fileOperationService.deleteItem. -/
structure DeleteResult where
  success : Bool
  error : Option String

/-- deleteNode (fileTreeService.ts) reduced to its returned value: true
exactly when the gateway delete succeeds; on failure the thrown error is
caught inside deleteNode and false is returned.  The gateway enters as the
function argument deleteItem (path, isDirectory); the cache invalidation and
notification side effects do not influence the return value and are not
modelled here. -/
def deleteNode (deleteItem : String → Bool → DeleteResult) (node : FileTreeNode) : Bool :=
  (deleteItem (jsKey node.path) (node.type == some NodeType.directory)).success

/-- deleteMultipleNodes (fileTreeService.ts): one delete per node, a node is
pushed to successful when deleteNode returns true and otherwise to failed with
the constant reason string 删除失败 produced by the source; deleteNode never
throws, so the catch branch that would record error.message is unreachable.
The concurrent fan-out pushes in completion order; the embedding fixes the
input-order interleaving, and the partition membership proved about it is the
same for every interleaving. -/
def deleteMultipleNodes (deleteItem : String → Bool → DeleteResult)
    (nodes : List FileTreeNode) : List FileTreeNode × List (FileTreeNode × String) :=
  nodes.foldl
    (fun acc node =>
      if deleteNode deleteItem node then (acc.1 ++ [node], acc.2)
      else (acc.1, acc.2 ++ [(node, "删除失败")]))
    ([], [])

/-- Reachability along the children arrays recorded in the node table: the ids
removeNode's recursion can reach from a start id.  A step follows child.id for
a child listed on the table entry of an already reached id. -/
inductive ReachTbl (tbl : List (String × FileTreeNode)) : String → String → Prop where
  | refl (a : String) : ReachTbl tbl a a
  | tail {a b c : String} {n : FileTreeNode} :
      ReachTbl tbl a b → lookupTbl tbl b = some n → c ∈ childKeys n → ReachTbl tbl a c

/-- The children graph of the table is acyclic, witnessed by a rank that
strictly drops along every child edge; this is the condition under which the
JavaScript recursion inside removeNode terminates. -/
def RankOk (tbl : List (String × FileTreeNode)) (rank : String → Nat) : Prop :=
  ∀ id n, lookupTbl tbl id = some n → ∀ c ∈ childKeys n, rank c < rank id

/-- t is a pointwise restriction of t0: every association readable from t is
readable unchanged from t0. -/
def SubTbl {α : Type} (t t0 : List (String × α)) : Prop :=
  ∀ k v, lookupTbl t k = some v → lookupTbl t0 k = some v

/-- Invariant of the cascading delete: the table is a restriction of the
original table tbl0, and every id of tbl0 that has already been deleted had
its whole tbl0-reachable set deleted with it. -/
def GoodTbl (tbl0 t : List (String × FileTreeNode)) : Prop :=
  SubTbl t tbl0 ∧
    ∀ u, (∃ n, lookupTbl tbl0 u = some n) → lookupTbl t u = none →
      ∀ d, ReachTbl tbl0 u d → lookupTbl t d = none

/-- A depth-0 directory whose children array is empty. -/
def nNode : FileTreeNode :=
  .mk (some "n") (some "n") (some "/n") (some NodeType.directory) none none (some [])
    none none none (some 0)

/-- A file node whose parent field points at nNode but which is not listed in
nNode's children array. -/
def mNode : FileTreeNode :=
  .mk (some "m") (some "m.txt") (some "/n/m.txt") (some NodeType.file) (some 1) (some 0)
    none none none (some "n") (some 1)

/-- Table holding nNode and the parent-linked but unlisted child mNode. -/
def stateNM : FileTreeState := { initialState with nodes := [("n", nNode), ("m", mNode)] }

/-- A child file node listed in the children array of dirNode. -/
def leafNode : FileTreeNode :=
  .mk (some "leaf") (some "a.txt") (some "/p/a.txt") (some NodeType.file) (some 10) (some 0)
    none none none (some "root") (some 1)

/-- A depth-0 directory listing leafNode in its children array. -/
def dirNode : FileTreeNode :=
  .mk (some "root") (some "p") (some "/p") (some NodeType.directory) none none (some [leafNode])
    none none none (some 0)

/-- State holding the two-node tree of dirNode and leafNode, with both ids
selected, expanded or loading and the root path registered. -/
def stateTree : FileTreeState :=
  { nodes := [("root", dirNode), ("leaf", leafNode)]
    rootPaths := [some "/p"]
    selectedNodes := ["leaf"]
    expandedNodes := ["root"]
    loadingNodes := ["root"]
    searchQuery := ""
    filteredNodes := [] }

/-- Rank function witnessing acyclicity of stateTree's children graph. -/
def rankTree : String → Nat := fun id => if id = "root" then 1 else 0

/-- A file-kind node used in the expandNode counterexample. -/
def fileNodeF : FileTreeNode :=
  .mk (some "f") (some "f.txt") (some "/p/f.txt") (some NodeType.file) (some 1) (some 0)
    none none none none (some 1)

/-- A state whose table holds only the file node fileNodeF under id f. -/
def stateWithFile : FileTreeState := { initialState with nodes := [("f", fileNodeF)] }

/-- Depth-0 directory node used in the addNode theorems. -/
def rootNodeP : FileTreeNode :=
  .mk (some "r") (some "p") (some "/p") (some NodeType.directory) none none (some [])
    none none none (some 0)

/-- The update object carrying only a size field, as passed to updateNode. -/
def sizeOnlyUpdate : FileTreeNode :=
  .mk none none none none (some 5) none none none none none none

/-- Sibling directory z with size 0, from the sort scenario of the spec. -/
def zDir : FileTreeNode :=
  .mk (some "z") (some "z") (some "/p/z") (some NodeType.directory) (some 0) (some 0) (some [])
    none none none (some 1)

/-- Sibling file a with size 5, from the sort scenario of the spec. -/
def aFile : FileTreeNode :=
  .mk (some "a") (some "a") (some "/p/a") (some NodeType.file) (some 5) (some 0)
    none none none none (some 1)

/-- Sibling file b with size 20, from the sort scenario of the spec. -/
def bFile : FileTreeNode :=
  .mk (some "b") (some "b") (some "/p/b") (some NodeType.file) (some 20) (some 0)
    none none none none (some 1)

/-- Constant collation standing in for the environment's localeCompare in the
concrete sort evaluation; the comparator never reaches a name comparison on
the inputs used there (the kinds differ or the key is size). -/
def lcConst : String → String → Int := fun _ _ => 0

/-- File node /d/a.txt of the batch-delete scenario. -/
def fileA : FileTreeNode :=
  .mk (some "a") (some "a.txt") (some "/d/a.txt") (some NodeType.file) (some 1) (some 0)
    none none none none (some 1)

/-- File node /d/b.txt of the batch-delete scenario. -/
def fileB : FileTreeNode :=
  .mk (some "b") (some "b.txt") (some "/d/b.txt") (some NodeType.file) (some 1) (some 0)
    none none none none (some 1)

/-- Gateway that deletes /d/a.txt successfully and fails /d/b.txt with
PermissionDenied. -/
def permDeniedGateway : String → Bool → DeleteResult :=
  fun path _ =>
    if path = "/d/a.txt" then { success := true, error := none }
    else { success := false, error := some "PermissionDenied" }

/-- A deleted event for a path absent from every table used with it. -/
def sampleDeletedEvent : FileWatchEvent :=
  { type := WatchEventType.deleted, path := "/x", oldPath := none, stats := none }

/-- A cache whose single entry expired at time 0. -/
def staleCache : CacheState := { cache := [("old", [])], cacheExpiry := [("old", 0)] }

theorem lookupTbl_eraseTbl_self {α : Type} (t : List (String × α)) (k : String) :
    lookupTbl (eraseTbl t k) k = none := by
  induction t with
  | nil => rfl
  | cons kv rest ih =>
      obtain ⟨a, b⟩ := kv
      by_cases h : a = k
      · simpa [eraseTbl, List.filter_cons, h] using ih
      · have hb : (a != k) = true := by simpa [bne_iff_ne] using h
        simpa [eraseTbl, List.filter_cons, hb, lookupTbl, h] using ih

theorem lookupTbl_eraseTbl_ne {α : Type} (t : List (String × α)) {k k' : String} (h : k' ≠ k) :
    lookupTbl (eraseTbl t k) k' = lookupTbl t k' := by
  induction t with
  | nil => rfl
  | cons kv rest ih =>
      obtain ⟨a, b⟩ := kv
      by_cases h1 : a = k
      · have h3 : ¬ k = k' := fun he => h he.symm
        simpa [eraseTbl, List.filter_cons, h1, lookupTbl, h3] using ih
      · have hb : (a != k) = true := by simpa [bne_iff_ne] using h1
        by_cases h2 : a = k'
        · simp [eraseTbl, List.filter_cons, hb, lookupTbl, h2, h]
        · simpa [eraseTbl, List.filter_cons, hb, lookupTbl, h2] using ih

theorem lookupTbl_eraseTbl_none {α : Type} (t : List (String × α)) (k k' : String)
    (h : lookupTbl t k' = none) : lookupTbl (eraseTbl t k) k' = none := by
  by_cases hk : k' = k
  · subst hk; exact lookupTbl_eraseTbl_self t k'
  · rw [lookupTbl_eraseTbl_ne t hk]; exact h

theorem lookupTbl_insertTbl_self {α : Type} (t : List (String × α)) (k : String) (v : α) :
    lookupTbl (insertTbl t k v) k = some v := by
  simp [insertTbl, lookupTbl]

theorem lookupTbl_insertTbl_ne {α : Type} (t : List (String × α)) {k k' : String} (v : α)
    (h : k' ≠ k) : lookupTbl (insertTbl t k v) k' = lookupTbl t k' := by
  have h2 : k ≠ k' := fun he => h he.symm
  simp only [insertTbl, lookupTbl, if_neg h2]
  exact lookupTbl_eraseTbl_ne t h

theorem not_mem_filter_bne_self {α : Type} [BEq α] [LawfulBEq α] (l : List α) (x : α) :
    x ∉ l.filter (fun y => y != x) := by
  simp [List.mem_filter]

theorem mem_filter_bne_iff {α : Type} [BEq α] [LawfulBEq α] (l : List α) {x a : α}
    (h : a ≠ x) : a ∈ l.filter (fun y => y != x) ↔ a ∈ l := by
  simp [List.mem_filter, h]

/-- C10: getSelectedNodes returns exactly the nodes whose ids are in the
selection list and present in the node table; selected ids with no table entry
are silently skipped. -/
theorem getSelectedNodes_exactly_present (s : FileTreeState) (n : FileTreeNode) :
    n ∈ getSelectedNodes s ↔ ∃ i, i ∈ s.selectedNodes ∧ lookupTbl s.nodes i = some n := by
  simp [getSelectedNodes, List.mem_filterMap, List.mem_map]

/-- C5 counterexample: expanding a file-kind node is not a no-op — the file id
is added to the expansion set. -/
theorem expandNode_file_counterexample :
    lookupTbl stateWithFile.nodes "f" = some fileNodeF ∧
    fileNodeF.type = some NodeType.file ∧
    stateWithFile.expandedNodes = [] ∧
    (expandNode stateWithFile "f").expandedNodes = ["f"] :=
  ⟨rfl, rfl, rfl, rfl⟩

/-- C5 amended: expandNode adds the id to the expansion set when it is absent
and leaves the set unchanged when it is present, regardless of the kind or
even the existence of a node under that id. -/
theorem expandNode_amended (s : FileTreeState) (nodeId : String) :
    nodeId ∈ (expandNode s nodeId).expandedNodes ∧
    (nodeId ∈ s.expandedNodes → (expandNode s nodeId).expandedNodes = s.expandedNodes) ∧
    (nodeId ∉ s.expandedNodes →
      (expandNode s nodeId).expandedNodes = s.expandedNodes ++ [nodeId]) := by
  by_cases h : nodeId ∈ s.expandedNodes
  · refine ⟨?_, fun _ => ?_, fun hn => absurd h hn⟩ <;>
      simp [expandNode, List.elem_iff, h]
  · refine ⟨?_, fun hn => absurd hn h, fun _ => ?_⟩ <;>
      simp [expandNode, List.elem_iff, h]

/-- Witness for expandNode_amended at the empty initial state. -/
theorem expandNode_amended_witness :
    "f" ∉ initialState.expandedNodes ∧
    (expandNode initialState "f").expandedNodes = initialState.expandedNodes ++ ["f"] :=
  ⟨by simp [initialState], (expandNode_amended initialState "f").2.2 (by simp [initialState])⟩

/-- C4 counterexample: adding the same depth-0 node twice appends its path
twice, so the root-path list does contain duplicates. -/
theorem addNode_duplicate_root_counterexample :
    rootNodeP.depth = some 0 ∧
    (addNode (addNode initialState rootNodeP) rootNodeP).rootPaths = [some "/p", some "/p"] ∧
    ¬ (addNode (addNode initialState rootNodeP) rootNodeP).rootPaths.Nodup := by
  refine ⟨rfl, rfl, ?_⟩
  rw [show (addNode (addNode initialState rootNodeP) rootNodeP).rootPaths
      = [some "/p", some "/p"] from rfl]
  decide

/-- C4 amended: addNode inserts or overwrites by id and, for a depth-0 node,
appends its path to the root-path list unconditionally — the occurrence count
of the path always grows by one, whether or not it was already present. -/
theorem addNode_amended (s : FileTreeState) (node : FileTreeNode) :
    lookupTbl (addNode s node).nodes (jsKey node.id) = some node ∧
    (∀ k, k ≠ jsKey node.id → lookupTbl (addNode s node).nodes k = lookupTbl s.nodes k) ∧
    (node.depth = some 0 → (addNode s node).rootPaths = s.rootPaths ++ [node.path]) ∧
    (node.depth ≠ some 0 → (addNode s node).rootPaths = s.rootPaths) ∧
    (node.depth = some 0 →
      (addNode s node).rootPaths.count node.path = s.rootPaths.count node.path + 1) := by
  refine ⟨lookupTbl_insertTbl_self _ _ _, fun k hk => lookupTbl_insertTbl_ne _ _ hk, ?_, ?_, ?_⟩
  · intro h; simp [addNode, h]
  · intro h; simp [addNode, h]
  · intro h; simp [addNode, h, List.count_append]

/-- Witness for addNode_amended on the depth-0 node rootNodeP. -/
theorem addNode_amended_witness :
    rootNodeP.depth = some 0 ∧
    (addNode initialState rootNodeP).rootPaths = initialState.rootPaths ++ [rootNodeP.path] ∧
    ("x" : String) ≠ jsKey rootNodeP.id ∧
    lookupTbl (addNode initialState rootNodeP).nodes "x" = lookupTbl initialState.nodes "x" :=
  ⟨rfl, (addNode_amended initialState rootNodeP).2.2.1 rfl, by decide,
    (addNode_amended initialState rootNodeP).2.1 "x" (by decide)⟩

/-- C6 counterexample: updateNode under an absent id is not a no-op — it
inserts a fresh entry equal to the bare update object. -/
theorem updateNode_absent_counterexample :
    lookupTbl initialState.nodes "ghost" = none ∧
    lookupTbl (updateNode initialState "ghost" sizeOnlyUpdate).nodes "ghost" =
      some (mergeNode emptyNode sizeOnlyUpdate) ∧
    (updateNode initialState "ghost" sizeOnlyUpdate).nodes ≠ initialState.nodes := by
  refine ⟨rfl, rfl, fun h => ?_⟩
  exact List.cons_ne_nil _ _ h

/-- C6 amended: when the id is absent, updateNode inserts a new entry under it
consisting of exactly the update fields merged over the empty object, and
leaves every other key of the table unchanged. -/
theorem updateNode_absent_amended (s : FileTreeState) (id : String) (updates : FileTreeNode)
    (h : lookupTbl s.nodes id = none) :
    lookupTbl (updateNode s id updates).nodes id = some (mergeNode emptyNode updates) ∧
    ∀ k, k ≠ id → lookupTbl (updateNode s id updates).nodes k = lookupTbl s.nodes k := by
  constructor
  · have h1 : lookupTbl (updateNode s id updates).nodes id
        = some (mergeNode ((lookupTbl s.nodes id).getD emptyNode) updates) :=
      lookupTbl_insertTbl_self _ _ _
    rw [h1, h]
    rfl
  · intro k hk
    exact lookupTbl_insertTbl_ne _ _ hk

/-- Witness for updateNode_absent_amended at the empty table. -/
theorem updateNode_absent_amended_witness :
    lookupTbl initialState.nodes "ghost" = none ∧
    lookupTbl (updateNode initialState "ghost" sizeOnlyUpdate).nodes "ghost" =
      some (mergeNode emptyNode sizeOnlyUpdate) :=
  ⟨rfl, (updateNode_absent_amended initialState "ghost" sizeOnlyUpdate rfl).1⟩

/-- C2, evaluated at the failing input from the specification's own scenario:
siblings directory z (size 0), file a (size 5), file b (size 20) sorted by
size descending.  The code returns [b, a, z]: the directory comes last, so a
file precedes a directory and the directories-first rule is reversed by the
descending order, contradicting the documented comparator contract. -/
theorem sortNodes_desc_reverses_directory_priority :
    zDir.type = some NodeType.directory ∧
    aFile.type = some NodeType.file ∧
    bFile.type = some NodeType.file ∧
    (sortNodesByConfig lcConst lcConst [zDir, aFile, bFile] SortBy.size SortOrder.desc).map
        (fun n => n.name) = [some "b", some "a", some "z"] :=
  ⟨rfl, rfl, rfl, by decide⟩

theorem deleteMultipleNodes_foldl_eq (gw : String → Bool → DeleteResult)
    (l : List FileTreeNode) :
    ∀ acc : List FileTreeNode × List (FileTreeNode × String),
      l.foldl
        (fun acc node =>
          if deleteNode gw node then (acc.1 ++ [node], acc.2)
          else (acc.1, acc.2 ++ [(node, "删除失败")]))
        acc =
      (acc.1 ++ l.filter (fun n => deleteNode gw n),
        acc.2 ++ (l.filter (fun n => !(deleteNode gw n))).map (fun n => (n, "删除失败"))) := by
  induction l with
  | nil => intro acc; simp
  | cons n l ih =>
      intro acc
      by_cases h : deleteNode gw n
      · simp [List.foldl_cons, h, ih, List.filter_cons]
      · simp [List.foldl_cons, h, ih, List.filter_cons]

/-- C9 counterexample: with a gateway that succeeds on fileA and fails fileB
with PermissionDenied, the failed entry carries the constant reason string of
the source, not PermissionDenied. -/
theorem deleteMultipleNodes_reason_counterexample :
    deleteMultipleNodes permDeniedGateway [fileA, fileB] = ([fileA], [(fileB, "删除失败")]) ∧
    (fileB, "PermissionDenied") ∉ (deleteMultipleNodes permDeniedGateway [fileA, fileB]).2 ∧
    ("删除失败" : String) ≠ "PermissionDenied" := by
  refine ⟨rfl, ?_, by decide⟩
  rw [show deleteMultipleNodes permDeniedGateway [fileA, fileB]
      = ([fileA], [(fileB, "删除失败")]) from rfl]
  intro hmem
  have h2 := congrArg Prod.snd (List.mem_singleton.mp hmem)
  exact absurd h2 (by decide)

/-- C9 amended: deleteMultipleNodes attempts every node and partitions the
input into the nodes whose delete succeeded and, paired with the constant
reason 删除失败, the nodes whose delete failed; the specific gateway error is
not propagated. -/
theorem deleteMultipleNodes_amended (gw : String → Bool → DeleteResult)
    (nodes : List FileTreeNode) :
    (∀ n, n ∈ (deleteMultipleNodes gw nodes).1 ↔ n ∈ nodes ∧ deleteNode gw n = true) ∧
    (∀ nr : FileTreeNode × String,
      nr ∈ (deleteMultipleNodes gw nodes).2 ↔
        nr.1 ∈ nodes ∧ deleteNode gw nr.1 = false ∧ nr.2 = "删除失败") := by
  have he := deleteMultipleNodes_foldl_eq gw nodes ([], [])
  constructor
  · intro n
    rw [show (deleteMultipleNodes gw nodes) = _ from he]
    simp [List.mem_filter]
  · rintro ⟨n, r⟩
    rw [show (deleteMultipleNodes gw nodes) = _ from he]
    simp [List.mem_filter, List.mem_map]
    constructor
    · rintro ⟨a, ⟨ha, hd⟩, rfl, rfl⟩
      exact ⟨ha, by simpa using hd, rfl⟩
    · rintro ⟨ha, hd, rfl⟩
      exact ⟨n, ⟨ha, by simpa using hd⟩, rfl, rfl⟩

/-- C7: a modified, deleted or renamed event whose referenced path (the old
path for renamed) has no corresponding id in the node table leaves the whole
store state unchanged; the reducer is total and never raises. -/
theorem handleFileWatchEvent_unknown_noop (s : FileTreeState) (e : FileWatchEvent)
    (ht : e.type = WatchEventType.modified ∨ e.type = WatchEventType.deleted ∨
      e.type = WatchEventType.renamed)
    (hmd : e.type = WatchEventType.modified ∨ e.type = WatchEventType.deleted →
      lookupTbl s.nodes (generateNodeId e.path) = none)
    (hrn : e.type = WatchEventType.renamed →
      ∀ op, e.oldPath = some op → lookupTbl s.nodes (generateNodeId op) = none) :
    handleFileWatchEvent s e = s := by
  rcases ht with ht | ht | ht
  · have h := hmd (Or.inl ht)
    cases hst : e.stats <;> simp [handleFileWatchEvent, ht, h, hst]
  · have h := hmd (Or.inr ht)
    simp [handleFileWatchEvent, ht, h]
  · cases hop : e.oldPath with
    | none => simp [handleFileWatchEvent, ht, hop]
    | some op =>
        by_cases hne : op = ""
        · simp [handleFileWatchEvent, ht, hop, hne]
        · have h := hrn ht op hop
          simp [handleFileWatchEvent, ht, hop, hne, h]

/-- Witness for handleFileWatchEvent_unknown_noop: a deleted event for a path
unknown to the empty store. -/
theorem handleFileWatchEvent_unknown_noop_witness :
    lookupTbl initialState.nodes (generateNodeId sampleDeletedEvent.path) = none ∧
    handleFileWatchEvent initialState sampleDeletedEvent = initialState :=
  ⟨rfl,
    handleFileWatchEvent_unknown_noop initialState sampleDeletedEvent
      (Or.inr (Or.inl rfl)) (fun _ => rfl)
      (fun h => absurd h (by decide))⟩

theorem sweep_preserves_fresh (now : Int) (path : String) :
    ∀ (l : List (String × Int)) (acc : CacheState),
      (∀ kv ∈ l, kv.1 = path → ¬ now > kv.2) →
      lookupTbl
        (l.foldl
          (fun acc kv =>
            if now > kv.2 then
              { cache := eraseTbl acc.cache kv.1, cacheExpiry := eraseTbl acc.cacheExpiry kv.1 }
            else acc)
          acc).cache path = lookupTbl acc.cache path := by
  intro l
  induction l with
  | nil => intro acc _; rfl
  | cons kv l ih =>
      intro acc hfresh
      simp only [List.foldl_cons]
      by_cases hexp : now > kv.2
      · have hne : kv.1 ≠ path := fun he => hfresh kv (by simp) he hexp
        rw [if_pos hexp]
        rw [ih _ (fun kv2 h2 => hfresh kv2 (by simp [h2]))]
        exact lookupTbl_eraseTbl_ne _ (fun he => hne he.symm)
      · rw [if_neg hexp]
        exact ih _ (fun kv2 h2 => hfresh kv2 (by simp [h2]))

theorem sweep_preserves_none (now : Int) (k : String) :
    ∀ (l : List (String × Int)) (acc : CacheState),
      lookupTbl acc.cache k = none → lookupTbl acc.cacheExpiry k = none →
      lookupTbl
        (l.foldl
          (fun acc kv =>
            if now > kv.2 then
              { cache := eraseTbl acc.cache kv.1, cacheExpiry := eraseTbl acc.cacheExpiry kv.1 }
            else acc)
          acc).cache k = none ∧
      lookupTbl
        (l.foldl
          (fun acc kv =>
            if now > kv.2 then
              { cache := eraseTbl acc.cache kv.1, cacheExpiry := eraseTbl acc.cacheExpiry kv.1 }
            else acc)
          acc).cacheExpiry k = none := by
  intro l
  induction l with
  | nil => intro acc h1 h2; exact ⟨h1, h2⟩
  | cons kv l ih =>
      intro acc h1 h2
      simp only [List.foldl_cons]
      by_cases hexp : now > kv.2
      · rw [if_pos hexp]
        exact ih _ (lookupTbl_eraseTbl_none _ _ _ h1) (lookupTbl_eraseTbl_none _ _ _ h2)
      · rw [if_neg hexp]
        exact ih _ h1 h2

theorem sweep_deletes_expired (now : Int) :
    ∀ (l : List (String × Int)) (acc : CacheState) (k : String) (e : Int),
      (k, e) ∈ l → now > e →
      lookupTbl
        (l.foldl
          (fun acc kv =>
            if now > kv.2 then
              { cache := eraseTbl acc.cache kv.1, cacheExpiry := eraseTbl acc.cacheExpiry kv.1 }
            else acc)
          acc).cache k = none ∧
      lookupTbl
        (l.foldl
          (fun acc kv =>
            if now > kv.2 then
              { cache := eraseTbl acc.cache kv.1, cacheExpiry := eraseTbl acc.cacheExpiry kv.1 }
            else acc)
          acc).cacheExpiry k = none := by
  intro l
  induction l with
  | nil => intro acc k e hmem; exact absurd hmem (List.not_mem_nil _)
  | cons kv l ih =>
      intro acc k e hmem hexp
      simp only [List.foldl_cons]
      rcases List.mem_cons.mp hmem with heq | hmem2
      · have h1 : kv = (k, e) := heq.symm
        subst h1
        rw [if_pos hexp]
        exact sweep_preserves_none now k l _
          (lookupTbl_eraseTbl_self _ _) (lookupTbl_eraseTbl_self _ _)
      · by_cases hkv : now > kv.2
        · rw [if_pos hkv]; exact ih _ k e hmem2 hexp
        · rw [if_neg hkv]; exact ih _ k e hmem2 hexp

/-- C8: a set followed immediately by a get returns the stored nodes; a get
performed strictly after the five-minute TTL has elapsed returns a miss; and
every get first sweeps all expired entries out of both maps before its
lookup. -/
theorem cache_set_get_ttl (st : CacheState) (path : String) (nodes : List FileTreeNode)
    (t tLate now : Int) (k : String) (e : Int) :
    (getCachedNodes t (setCachedNodes t st path nodes) path).2 = some nodes ∧
    (tLate > t + CACHE_DURATION →
      (getCachedNodes tLate (setCachedNodes t st path nodes) path).2 = none) ∧
    ((k, e) ∈ st.cacheExpiry → now > e →
      lookupTbl (getCachedNodes now st path).1.cache k = none ∧
      lookupTbl (getCachedNodes now st path).1.cacheExpiry k = none) := by
  refine ⟨?_, ?_, ?_⟩
  · show lookupTbl (cleanExpiredCache t (setCachedNodes t st path nodes)).cache path = some nodes
    unfold cleanExpiredCache
    rw [sweep_preserves_fresh]
    · exact lookupTbl_insertTbl_self _ _ _
    · intro kv hkv hpath
      rcases List.mem_cons.mp hkv with heq | hmem
      · rw [heq]
        show ¬ t > t + CACHE_DURATION
        unfold CACHE_DURATION
        omega
      · have := List.mem_filter.mp hmem
        exact absurd hpath (by simpa [bne_iff_ne] using this.2)
  · intro hlate
    show lookupTbl (cleanExpiredCache tLate (setCachedNodes t st path nodes)).cache path = none
    unfold cleanExpiredCache
    exact (sweep_deletes_expired tLate _ _ path (t + CACHE_DURATION) (by simp [setCachedNodes, insertTbl]) hlate).1
  · intro hmem hexp
    unfold getCachedNodes cleanExpiredCache
    exact sweep_deletes_expired now _ _ k e hmem hexp

/-- Witness for cache_set_get_ttl on a concrete stale cache and concrete
times. -/
theorem cache_set_get_ttl_witness :
    (getCachedNodes 10 (setCachedNodes 10 staleCache "p" []) "p").2 = some [] ∧
    ((300011 : Int) > 10 + CACHE_DURATION ∧
      (getCachedNodes 300011 (setCachedNodes 10 staleCache "p" []) "p").2 = none) ∧
    (("old", (0 : Int)) ∈ staleCache.cacheExpiry ∧ (1 : Int) > 0 ∧
      lookupTbl (getCachedNodes 1 staleCache "p").1.cache "old" = none) :=
  ⟨(cache_set_get_ttl staleCache "p" [] 10 300011 1 "old" 0).1,
    ⟨by decide,
      (cache_set_get_ttl staleCache "p" [] 10 300011 1 "old" 0).2.1 (by decide)⟩,
    ⟨by decide, by decide,
      ((cache_set_get_ttl staleCache "p" [] 10 300011 1 "old" 0).2.2 (by decide) (by decide)).1⟩⟩

theorem toNat_ofNat_small (k : Nat) (h : k < 55296) : (Char.ofNat k).toNat = k := by
  have hv : Nat.isValidChar k := Or.inl h
  rw [Char.ofNat, dif_pos hv]
  rfl

theorem char_toNat_lt (c : Char) : c.toNat < 1114112 := by
  rcases c.valid with h | ⟨_, h2⟩
  · have h3 : c.val.toNat < (55296 : UInt32).toNat := h
    have h4 : (55296 : UInt32).toNat = 55296 := rfl
    show c.val.toNat < 1114112
    omega
  · have h3 : c.val.toNat < (1114112 : UInt32).toNat := h2
    have h4 : (1114112 : UInt32).toNat = 1114112 := rfl
    show c.val.toNat < 1114112
    omega

theorem isUpper_toNat_lt (c : Char) (h : c.isUpper = true) : c.toNat < 256 := by
  simp only [Char.isUpper, Bool.and_eq_true, decide_eq_true_eq] at h
  obtain ⟨h1, h2⟩ := h
  have h3 : c.val.toNat ≤ (90 : UInt32).toNat := h2
  have h4 : (90 : UInt32).toNat = 90 := rfl
  show c.val.toNat < 256
  omega

theorem isLower_toNat_lt (c : Char) (h : c.isLower = true) : c.toNat < 256 := by
  simp only [Char.isLower, Bool.and_eq_true, decide_eq_true_eq] at h
  obtain ⟨h1, h2⟩ := h
  have h3 : c.val.toNat ≤ (122 : UInt32).toNat := h2
  have h4 : (122 : UInt32).toNat = 122 := rfl
  show c.val.toNat < 256
  omega

theorem isDigit_toNat_lt (c : Char) (h : c.isDigit = true) : c.toNat < 256 := by
  simp only [Char.isDigit, Bool.and_eq_true, decide_eq_true_eq] at h
  obtain ⟨h1, h2⟩ := h
  have h3 : c.val.toNat ≤ (57 : UInt32).toNat := h2
  have h4 : (57 : UInt32).toNat = 57 := rfl
  show c.val.toNat < 256
  omega

theorem isUnreserved_toNat_lt (c : Char) (h : isUnreservedURIChar c = true) :
    c.toNat < 256 := by
  unfold isUnreservedURIChar at h
  simp only [Char.isAlpha, Bool.or_eq_true, beq_iff_eq] at h
  casesm* _ ∨ _
  all_goals first
    | exact isUpper_toNat_lt c (by assumption)
    | exact isLower_toNat_lt c (by assumption)
    | exact isDigit_toNat_lt c (by assumption)
    | (rename_i he; subst he; decide)

theorem utf8Bytes_lt (n : Nat) (h : n < 1114112) : ∀ b ∈ utf8Bytes n, b < 256 := by
  intro b hb
  unfold utf8Bytes at hb
  split_ifs at hb <;> simp at hb <;> omega

theorem hexUpper_toNat_lt (n : Nat) (h : n < 16) : (hexUpper n).toNat < 256 := by
  unfold hexUpper
  split_ifs with h1
  · rw [toNat_ofNat_small _ (by omega)]; omega
  · rw [toNat_ofNat_small _ (by omega)]; omega

theorem encodeURIComponent_bytes_lt (s : String) :
    ∀ b ∈ encodeURIComponent s, b < 256 := by
  intro b hb
  unfold encodeURIComponent at hb
  rw [List.mem_flatten] at hb
  obtain ⟨l, hl, hbl⟩ := hb
  rw [List.mem_map] at hl
  obtain ⟨c, _, rfl⟩ := hl
  by_cases hu : isUnreservedURIChar c
  · rw [if_pos hu] at hbl
    simp at hbl
    subst hbl
    exact isUnreserved_toNat_lt c hu
  · rw [if_neg hu] at hbl
    rw [List.mem_flatten] at hbl
    obtain ⟨l2, hl2, hbl2⟩ := hbl
    rw [List.mem_map] at hl2
    obtain ⟨x, hx, rfl⟩ := hl2
    have hx256 : x < 256 := utf8Bytes_lt _ (char_toNat_lt c) x hx
    simp at hbl2
    rcases hbl2 with rfl | rfl | rfl
    · omega
    · exact hexUpper_toNat_lt _ (by omega)
    · exact hexUpper_toNat_lt _ (by omega)

theorem mem_btoa (bytes : List Nat) (hb : ∀ b ∈ bytes, b < 256) :
    ∀ c ∈ btoa bytes, (∃ m, m < 64 ∧ c = b64Char m) ∨ c = '=' := by
  induction bytes using btoa.induct with
  | case1 => intro c hc; simp [btoa] at hc
  | case2 b1 =>
      intro c hc
      have h1 : b1 < 256 := hb b1 (by simp)
      simp [btoa] at hc
      rcases hc with rfl | rfl | rfl
      · exact Or.inl ⟨b1 / 4, by omega, rfl⟩
      · exact Or.inl ⟨b1 % 4 * 16, by omega, rfl⟩
      · exact Or.inr rfl
  | case3 b1 b2 =>
      intro c hc
      have h1 : b1 < 256 := hb b1 (by simp)
      have h2 : b2 < 256 := hb b2 (by simp)
      simp [btoa] at hc
      rcases hc with rfl | rfl | rfl | rfl
      · exact Or.inl ⟨b1 / 4, by omega, rfl⟩
      · exact Or.inl ⟨b1 % 4 * 16 + b2 / 16, by omega, rfl⟩
      · exact Or.inl ⟨b2 % 16 * 4, by omega, rfl⟩
      · exact Or.inr rfl
  | case4 b1 b2 b3 rest ih =>
      intro c hc
      have h1 : b1 < 256 := hb b1 (by simp)
      have h2 : b2 < 256 := hb b2 (by simp)
      have h3 : b3 < 256 := hb b3 (by simp)
      rw [show btoa (b1 :: b2 :: b3 :: rest)
          = b64Char (b1 / 4) :: b64Char (b1 % 4 * 16 + b2 / 16) ::
            b64Char (b2 % 16 * 4 + b3 / 64) :: b64Char (b3 % 64) :: btoa rest from rfl] at hc
      simp only [List.mem_cons] at hc
      rcases hc with rfl | rfl | rfl | rfl | hc
      · exact Or.inl ⟨b1 / 4, by omega, rfl⟩
      · exact Or.inl ⟨b1 % 4 * 16 + b2 / 16, by omega, rfl⟩
      · exact Or.inl ⟨b2 % 16 * 4 + b3 / 64, by omega, rfl⟩
      · exact Or.inl ⟨b3 % 64, by omega, rfl⟩
      · exact ih (fun b hbm => hb b (by simp [hbm])) c hc

theorem ne_of_toNat_ne {c d : Char} (h : c.toNat ≠ d.toNat) : c ≠ d :=
  fun he => h (he ▸ rfl)

theorem b64Char_charset (m : Nat) (h : m < 64) (h62 : m ≠ 62) (h63 : m ≠ 63) :
    (b64Char m ≠ '/' ∧ b64Char m ≠ '\\') ∧
      (32 ≤ (b64Char m).toNat ∧ (b64Char m).toNat ≠ 127) := by
  have hs : ('/' : Char).toNat = 47 := rfl
  have hbs : ('\\' : Char).toNat = 92 := rfl
  unfold b64Char
  split_ifs with h1 h2 h3
  · have ht : (Char.ofNat (65 + m)).toNat = 65 + m := toNat_ofNat_small _ (by omega)
    exact ⟨⟨ne_of_toNat_ne (by rw [ht, hs]; omega), ne_of_toNat_ne (by rw [ht, hbs]; omega)⟩,
      by rw [ht]; omega, by rw [ht]; omega⟩
  · have ht : (Char.ofNat (97 + (m - 26))).toNat = 97 + (m - 26) := toNat_ofNat_small _ (by omega)
    exact ⟨⟨ne_of_toNat_ne (by rw [ht, hs]; omega), ne_of_toNat_ne (by rw [ht, hbs]; omega)⟩,
      by rw [ht]; omega, by rw [ht]; omega⟩
  · have ht : (Char.ofNat (48 + (m - 52))).toNat = 48 + (m - 52) := toNat_ofNat_small _ (by omega)
    exact ⟨⟨ne_of_toNat_ne (by rw [ht, hs]; omega), ne_of_toNat_ne (by rw [ht, hbs]; omega)⟩,
      by rw [ht]; omega, by rw [ht]; omega⟩
  · exfalso; omega

/-- C3 counterexample: two distinct, realistic ASCII paths with the same
generated id.  Stripping the + of btoa("ab~!L") = "YWJ+IUw=" and the padding
of btoa("abHS") = "YWJIUw==" leaves the same string "YWJIUw". -/
theorem generateNodeId_collision_counterexample :
    generateNodeId "abHS" = generateNodeId "ab~!L" ∧ ("abHS" : String) ≠ "ab~!L" :=
  ⟨by decide, by decide⟩

/-- C3 amended: the node identity function is deterministic and pure, and
every character of every id it produces is neither a path separator (slash or
backslash) nor a control character (codepoint below 32 or 127); injectivity,
however, fails — see the counterexample. -/
theorem generateNodeId_deterministic_charset (p : String) :
    generateNodeId p = generateNodeId p ∧
    ∀ c ∈ (generateNodeId p).data,
      (c ≠ '/' ∧ c ≠ '\\') ∧ (32 ≤ c.toNat ∧ c.toNat ≠ 127) := by
  refine ⟨rfl, ?_⟩
  intro c hc
  have hdata : (generateNodeId p).data
      = (btoa (encodeURIComponent p)).filter (fun c => !(c == '+' || c == '/' || c == '=')) := rfl
  rw [hdata, List.mem_filter] at hc
  obtain ⟨hmem, hpred⟩ := hc
  rcases mem_btoa _ (encodeURIComponent_bytes_lt p) c hmem with ⟨m, hm, rfl⟩ | rfl
  · have h62 : m ≠ 62 := by
      intro he; subst he
      rw [show b64Char 62 = '+' from rfl] at hpred
      simp at hpred
    have h63 : m ≠ 63 := by
      intro he; subst he
      rw [show b64Char 63 = '/' from rfl] at hpred
      simp at hpred
    exact b64Char_charset m hm h62 h63
  · simp at hpred

/-- Witness for generateNodeId_deterministic_charset at a concrete id
character. -/
theorem generateNodeId_deterministic_charset_witness :
    'Y' ∈ (generateNodeId "abHS").data ∧
    ('Y' ≠ '/' ∧ 'Y' ≠ '\\') ∧ (32 ≤ 'Y'.toNat ∧ 'Y'.toNat ≠ 127) :=
  ⟨by decide, (generateNodeId_deterministic_charset "abHS").2 'Y' (by decide)⟩

theorem ReachTbl.trans_reach {tbl : List (String × FileTreeNode)} {a b c : String}
    (h1 : ReachTbl tbl a b) (h2 : ReachTbl tbl b c) : ReachTbl tbl a c := by
  induction h2 with
  | refl => exact h1
  | tail _ hl hc ih => exact ReachTbl.tail ih hl hc

theorem reach_head {tbl : List (String × FileTreeNode)} {a c : String}
    (h : ReachTbl tbl a c) :
    a = c ∨ ∃ n b, lookupTbl tbl a = some n ∧ b ∈ childKeys n ∧ ReachTbl tbl b c := by
  induction h with
  | refl => exact Or.inl rfl
  | tail hab hl hc ih =>
      rcases ih with rfl | ⟨n1, b1, hl1, hb1, hbc⟩
      · exact Or.inr ⟨_, _, hl, hc, ReachTbl.refl _⟩
      · exact Or.inr ⟨n1, b1, hl1, hb1, ReachTbl.tail hbc hl hc⟩

theorem subTbl_refl {α : Type} (t : List (String × α)) : SubTbl t t := fun _ _ h => h

theorem subTbl_trans {α : Type} {t1 t2 t3 : List (String × α)}
    (h1 : SubTbl t1 t2) (h2 : SubTbl t2 t3) : SubTbl t1 t3 := fun k v h => h2 k v (h1 k v h)

theorem eraseTbl_sub {α : Type} (t : List (String × α)) (k : String) :
    SubTbl (eraseTbl t k) t := by
  intro k2 v h
  by_cases hk : k2 = k
  · subst hk; rw [lookupTbl_eraseTbl_self] at h; cases h
  · rw [lookupTbl_eraseTbl_ne t hk] at h; exact h

theorem sub_lookup_none {α : Type} {t2 t : List (String × α)} (hs : SubTbl t2 t)
    {k : String} (h : lookupTbl t k = none) : lookupTbl t2 k = none := by
  cases hl : lookupTbl t2 k with
  | none => rfl
  | some v => rw [hs k v hl] at h; cases h

theorem deleteChildren_sub : ∀ (fuel : Nat) (t : List (String × FileTreeNode)) (r : String),
    SubTbl (deleteChildren fuel t r) t := by
  intro fuel
  induction fuel with
  | zero => intro t r; exact subTbl_refl t
  | succ fuel ih =>
      intro t r
      cases hl : lookupTbl t r with
      | none =>
          have hred : deleteChildren (fuel + 1) t r = eraseTbl t r := by
            simp [deleteChildren, hl]
          rw [hred]; exact eraseTbl_sub t r
      | some n =>
          have hred : deleteChildren (fuel + 1) t r
              = eraseTbl ((childKeys n).foldl (fun a c => deleteChildren fuel a c) t) r := by
            simp [deleteChildren, hl]
          rw [hred]
          refine subTbl_trans (eraseTbl_sub _ r) ?_
          have hfold : ∀ (cs : List String) (acc : List (String × FileTreeNode)),
              SubTbl (cs.foldl (fun a c => deleteChildren fuel a c) acc) acc := by
            intro cs
            induction cs with
            | nil => intro acc; exact subTbl_refl acc
            | cons c cs ihc =>
                intro acc
                simp only [List.foldl_cons]
                exact subTbl_trans (ihc _) (ih acc c)
          exact hfold _ t

theorem foldl_deleteChildren_sub (fuel : Nat) :
    ∀ (cs : List String) (acc : List (String × FileTreeNode)),
      SubTbl (cs.foldl (fun a c => deleteChildren fuel a c) acc) acc := by
  intro cs
  induction cs with
  | nil => intro acc; exact subTbl_refl acc
  | cons c cs ihc =>
      intro acc
      simp only [List.foldl_cons]
      exact subTbl_trans (ihc _) (deleteChildren_sub fuel acc c)

theorem deleteChildren_unreachable :
    ∀ (fuel : Nat) (tbl0 t : List (String × FileTreeNode)) (r d : String),
      SubTbl t tbl0 → ¬ ReachTbl tbl0 r d →
      lookupTbl (deleteChildren fuel t r) d = lookupTbl t d := by
  intro fuel
  induction fuel with
  | zero => intro tbl0 t r d _ _; rfl
  | succ fuel ih =>
      intro tbl0 t r d hsub hnr
      have hdr : d ≠ r := fun he => hnr (by rw [he]; exact ReachTbl.refl r)
      cases hl : lookupTbl t r with
      | none =>
          have hred : deleteChildren (fuel + 1) t r = eraseTbl t r := by
            simp [deleteChildren, hl]
          rw [hred]; exact lookupTbl_eraseTbl_ne t hdr
      | some n =>
          have h0 : lookupTbl tbl0 r = some n := hsub r n hl
          have hred : deleteChildren (fuel + 1) t r
              = eraseTbl ((childKeys n).foldl (fun a c => deleteChildren fuel a c) t) r := by
            simp [deleteChildren, hl]
          rw [hred]
          have hnc : ∀ c ∈ childKeys n, ¬ ReachTbl tbl0 c d := by
            intro c hc hcd
            exact hnr (ReachTbl.trans_reach (ReachTbl.tail (ReachTbl.refl r) h0 hc) hcd)
          have hfold : ∀ (cs : List String), (∀ c ∈ cs, ¬ ReachTbl tbl0 c d) →
              ∀ acc, SubTbl acc tbl0 →
              lookupTbl (cs.foldl (fun a c => deleteChildren fuel a c) acc) d
                = lookupTbl acc d := by
            intro cs
            induction cs with
            | nil => intro _ acc _; rfl
            | cons c cs ihc =>
                intro hcs acc hacc
                simp only [List.foldl_cons]
                rw [ihc (fun c2 h2 => hcs c2 (List.mem_cons_of_mem c h2)) _
                  (subTbl_trans (deleteChildren_sub fuel acc c) hacc)]
                exact ih tbl0 acc c d hacc (hcs c (List.mem_cons_self c cs))
          rw [lookupTbl_eraseTbl_ne _ hdr]
          exact hfold (childKeys n) hnc t hsub

theorem deleteChildren_reachable (tbl0 : List (String × FileTreeNode))
    (rank : String → Nat) (hrank : RankOk tbl0 rank) :
    ∀ (fuel : Nat) (t : List (String × FileTreeNode)) (r : String),
      GoodTbl tbl0 t → rank r < fuel →
      GoodTbl tbl0 (deleteChildren fuel t r) ∧
        ∀ d, ReachTbl tbl0 r d → lookupTbl (deleteChildren fuel t r) d = none := by
  intro fuel
  induction fuel with
  | zero => intro t r _ hb; exact absurd hb (by omega)
  | succ fuel ih =>
      intro t r hg hb
      obtain ⟨hsub, hdel⟩ := hg
      cases hl : lookupTbl t r with
      | none =>
          have hred : deleteChildren (fuel + 1) t r = eraseTbl t r := by
            simp [deleteChildren, hl]
          rw [hred]
          have main : ∀ d, ReachTbl tbl0 r d → lookupTbl (eraseTbl t r) d = none := by
            intro d hreach
            cases hl0 : lookupTbl tbl0 r with
            | some n0 =>
                exact lookupTbl_eraseTbl_none _ _ _ (hdel r ⟨n0, hl0⟩ hl d hreach)
            | none =>
                rcases reach_head hreach with rfl | ⟨n1, b1, hln1, hmm, hmm2⟩
                · exact lookupTbl_eraseTbl_self _ _
                · rw [hl0] at hln1; cases hln1
          refine ⟨⟨subTbl_trans (eraseTbl_sub t r) hsub, ?_⟩, main⟩
          intro u hu0 hunone d hrud
          by_cases hur : u = r
          · subst hur; exact main d hrud
          · rw [lookupTbl_eraseTbl_ne t hur] at hunone
            exact lookupTbl_eraseTbl_none _ _ _ (hdel u hu0 hunone d hrud)
      | some n =>
          have h0 : lookupTbl tbl0 r = some n := hsub r n hl
          have hred : deleteChildren (fuel + 1) t r
              = eraseTbl ((childKeys n).foldl (fun a c => deleteChildren fuel a c) t) r := by
            simp [deleteChildren, hl]
          rw [hred]
          have hcrank : ∀ c ∈ childKeys n, rank c < fuel := by
            intro c hc
            have h2 := hrank r n h0 c hc
            omega
          have foldlem : ∀ (cs : List String), (∀ c ∈ cs, rank c < fuel) →
              ∀ acc, GoodTbl tbl0 acc →
              GoodTbl tbl0 (cs.foldl (fun a c => deleteChildren fuel a c) acc) ∧
                ∀ c ∈ cs, ∀ d, ReachTbl tbl0 c d →
                  lookupTbl (cs.foldl (fun a c => deleteChildren fuel a c) acc) d = none := by
            intro cs
            induction cs with
            | nil =>
                intro _ acc hacc
                exact ⟨hacc, by simp⟩
            | cons c cs ihc =>
                intro hcr acc hacc
                obtain ⟨hg1, hdel1⟩ := ih acc c hacc (hcr c (List.mem_cons_self c cs))
                obtain ⟨hg2, hdel2⟩ :=
                  ihc (fun c2 h2 => hcr c2 (List.mem_cons_of_mem c h2)) _ hg1
                simp only [List.foldl_cons]
                refine ⟨hg2, ?_⟩
                intro c2 hc2 d hreach
                rcases List.mem_cons.mp hc2 with rfl | hc2m
                · exact sub_lookup_none (foldl_deleteChildren_sub fuel cs _) (hdel1 d hreach)
                · exact hdel2 c2 hc2m d hreach
          obtain ⟨hgF, hdelF⟩ := foldlem (childKeys n) hcrank t ⟨hsub, hdel⟩
          have main : ∀ d, ReachTbl tbl0 r d →
              lookupTbl
                (eraseTbl ((childKeys n).foldl (fun a c => deleteChildren fuel a c) t) r)
                d = none := by
            intro d hreach
            rcases reach_head hreach with rfl | ⟨n1, b1, hln1, hb1, hreachb⟩
            · exact lookupTbl_eraseTbl_self _ _
            · rw [h0] at hln1
              injection hln1 with hne
              subst hne
              exact lookupTbl_eraseTbl_none _ _ _ (hdelF b1 hb1 d hreachb)
          refine ⟨⟨subTbl_trans (eraseTbl_sub _ r) hgF.1, ?_⟩, main⟩
          intro u hu0 hunone d hrud
          by_cases hur : u = r
          · subst hur; exact main d hrud
          · rw [lookupTbl_eraseTbl_ne _ hur] at hunone
            exact lookupTbl_eraseTbl_none _ _ _ (hgF.2 u hu0 hunone d hrud)

/-- C1 counterexample: mNode's ascendant chain includes nNode (its parent
field references id n), yet removeNode n leaves mNode in the table: the
recursion follows only the children arrays, and nNode's children array is
empty. -/
theorem removeNode_ascendant_chain_counterexample :
    lookupTbl stateNM.nodes "n" = some nNode ∧
    (∃ nd, lookupTbl stateNM.nodes "m" = some nd ∧ nd.parent = some "n") ∧
    lookupTbl (removeNode stateNM "n").nodes "m" = some mNode :=
  ⟨rfl, ⟨mNode, rfl, rfl⟩, rfl⟩

/-- C1 amended: for a node present in the table, with descendants D taken as
the ids reachable through the children arrays recorded in the table (not the
parent back-references), and under acyclicity of the children graph,
removeNode removes the node together with all of D, leaves every other table
entry unchanged, filters exactly the removed id out of the selection,
expansion and loading lists, and for a depth-0 node removes its path from the
root-path list. -/
theorem removeNode_cascading_amended (s : FileTreeState) (nid : String) (node : FileTreeNode)
    (rank : String → Nat)
    (hn : lookupTbl s.nodes nid = some node)
    (hrank : RankOk s.nodes rank)
    (hbound : rank nid ≤ s.nodes.length) :
    (∀ d, ReachTbl s.nodes nid d → lookupTbl (removeNode s nid).nodes d = none) ∧
    (∀ d, ¬ ReachTbl s.nodes nid d →
      lookupTbl (removeNode s nid).nodes d = lookupTbl s.nodes d) ∧
    (nid ∉ (removeNode s nid).selectedNodes ∧
      ∀ x, x ≠ nid → (x ∈ (removeNode s nid).selectedNodes ↔ x ∈ s.selectedNodes)) ∧
    (nid ∉ (removeNode s nid).expandedNodes ∧
      ∀ x, x ≠ nid → (x ∈ (removeNode s nid).expandedNodes ↔ x ∈ s.expandedNodes)) ∧
    (nid ∉ (removeNode s nid).loadingNodes ∧
      ∀ x, x ≠ nid → (x ∈ (removeNode s nid).loadingNodes ↔ x ∈ s.loadingNodes)) ∧
    (node.depth = some 0 →
      node.path ∉ (removeNode s nid).rootPaths ∧
      ∀ p, p ≠ node.path → (p ∈ (removeNode s nid).rootPaths ↔ p ∈ s.rootPaths)) ∧
    (node.depth ≠ some 0 → (removeNode s nid).rootPaths = s.rootPaths) := by
  have hnodes : (removeNode s nid).nodes
      = deleteChildren (s.nodes.length + 1) s.nodes nid := by
    simp [removeNode, hn]
  have hsel : (removeNode s nid).selectedNodes
      = s.selectedNodes.filter (fun x => x != nid) := by
    simp [removeNode]
  have hexp : (removeNode s nid).expandedNodes
      = s.expandedNodes.filter (fun x => x != nid) := by
    simp [removeNode]
  have hload : (removeNode s nid).loadingNodes
      = s.loadingNodes.filter (fun x => x != nid) := by
    simp [removeNode]
  have hgood : GoodTbl s.nodes s.nodes := by
    refine ⟨subTbl_refl _, ?_⟩
    intro u hu hnone
    rcases hu with ⟨n0, h0⟩
    rw [h0] at hnone
    cases hnone
  refine ⟨?_, ?_, ?_, ?_, ?_, ?_, ?_⟩
  · intro d hreach
    rw [hnodes]
    exact (deleteChildren_reachable s.nodes rank hrank (s.nodes.length + 1) s.nodes nid
      hgood (by omega)).2 d hreach
  · intro d hnr
    rw [hnodes]
    exact deleteChildren_unreachable (s.nodes.length + 1) s.nodes s.nodes nid d
      (subTbl_refl _) hnr
  · rw [hsel]
    exact ⟨not_mem_filter_bne_self _ _, fun x hx => mem_filter_bne_iff _ hx⟩
  · rw [hexp]
    exact ⟨not_mem_filter_bne_self _ _, fun x hx => mem_filter_bne_iff _ hx⟩
  · rw [hload]
    exact ⟨not_mem_filter_bne_self _ _, fun x hx => mem_filter_bne_iff _ hx⟩
  · intro hd
    have hroot : (removeNode s nid).rootPaths
        = s.rootPaths.filter (fun p => p != node.path) := by
      simp [removeNode, hn, hd]
    rw [hroot]
    exact ⟨not_mem_filter_bne_self _ _, fun p hp => mem_filter_bne_iff _ hp⟩
  · intro hd
    simp [removeNode, hn, hd]

/-- Witness for removeNode_cascading_amended on the two-node tree stateTree. -/
theorem removeNode_cascading_amended_witness :
    lookupTbl stateTree.nodes "root" = some dirNode ∧
    rankTree "root" ≤ stateTree.nodes.length ∧
    lookupTbl (removeNode stateTree "root").nodes "root" = none ∧
    lookupTbl (removeNode stateTree "root").nodes "leaf" = none ∧
    dirNode.depth = some 0 ∧
    dirNode.path ∉ (removeNode stateTree "root").rootPaths := by
  have hstate : stateTree.nodes = [("root", dirNode), ("leaf", leafNode)] := rfl
  have hrk : RankOk stateTree.nodes rankTree := by
    intro id n hlk c hc
    by_cases h1 : ("root" : String) = id
    · subst h1
      have hn2 : n = dirNode := by
        rw [show lookupTbl stateTree.nodes "root" = some dirNode from rfl] at hlk
        injection hlk with h
        exact h.symm
      subst hn2
      have hck : childKeys dirNode = ["leaf"] := rfl
      rw [hck] at hc
      have hc2 : c = "leaf" := List.mem_singleton.mp hc
      subst hc2
      decide
    · by_cases h2 : ("leaf" : String) = id
      · subst h2
        have hn2 : n = leafNode := by
          rw [show lookupTbl stateTree.nodes "leaf" = some leafNode from rfl] at hlk
          injection hlk with h
          exact h.symm
        subst hn2
        have hck : childKeys leafNode = [] := rfl
        rw [hck] at hc
        exact absurd hc (List.not_mem_nil c)
      · have hnone2 : lookupTbl stateTree.nodes id = none := by
          rw [hstate]
          simp [lookupTbl, h1, h2]
        rw [hnone2] at hlk
        cases hlk
  have h := removeNode_cascading_amended stateTree "root" dirNode rankTree rfl hrk (by decide)
  refine ⟨rfl, by decide, h.1 "root" (ReachTbl.refl _), h.1 "leaf" ?_, rfl,
    (h.2.2.2.2.2.1 rfl).1⟩
  exact ReachTbl.tail (ReachTbl.refl "root") rfl (by decide)
